import Mathlib

set_option maxRecDepth 16000

/-!
Verification of the block validation and chain-extension core of
`lib/schema/block.js` (a Bitcoin-compatible consensus core with optional
merge-mined auxiliary proof-of-work).

Buffers are modelled as `List Nat` (each element a byte value).  The
double-SHA-256 primitive `Util.twoSha256` lives outside the translated
module, so every definition that hashes is parameterised by a hash
function `H2 : List Nat → List Nat`; likewise transaction hashing
(`tx.getHash()`) is a parameter `txHash : Transaction → List Nat`.

JavaScript specifics that matter to the translated code are modelled
explicitly:
* `Buffer.compare` (buffertools memcmp) is `bufCompare`;
* `Array.prototype.sort()` with no comparator sorts by decimal-string
  order (`jsSortNat`);
* 64-bit IEEE-754 arithmetic on integer values rounds every operation
  to 53 significant bits, round-to-nearest ties-to-even (`jsRound`);
* loops are written with an explicit structural fuel argument whose
  initial value strictly dominates the number of iterations the
  JavaScript loop performs.
-/

/-! ### Byte-buffer primitives -/

/-- Lexicographic buffer comparison, the buffertools `Buffer.compare`
(memcmp). Equal-length buffers compare exactly as their big-endian
numeric values. -/
def bufCompare : List Nat → List Nat → Ordering
  | [], [] => .eq
  | [], _ :: _ => .lt
  | _ :: _, [] => .gt
  | a :: as, b :: bs => if a < b then .lt else if b < a then .gt else bufCompare as bs

/-- Big-endian numeric value of a byte buffer. -/
def bytesBE (l : List Nat) : Nat := l.foldl (fun acc b => acc * 256 + b) 0

/-- The `k` low-order bytes of `n`, big-endian (used to render a decoded
target as a fixed 32-byte buffer). -/
def natToBytesBE : Nat → Nat → List Nat
  | 0, _ => []
  | k + 1, n => natToBytesBE k (n / 256) ++ [n % 256]

/-- Little-endian 4-byte encoding of a 32-bit word, as written by
`Binary.put().word32le`. -/
def word32le (n : Nat) : List Nat :=
  [n % 256, n / 256 % 256, n / 65536 % 256, n / 16777216 % 256]

/-- `Buffer.readUInt32LE` on a byte list; out-of-range bytes read as 0
(the translated call sites are all in range). -/
def readUInt32LE (s : List Nat) (i : Nat) : Nat :=
  s.getD i 0 + 256 * s.getD (i + 1) 0 + 65536 * s.getD (i + 2) 0
    + 16777216 * s.getD (i + 3) 0

/-- Fuel-driven binary logarithm (the fuel strictly dominates the
number of halvings, so `log2Go n n` is `⌊log₂ n⌋`). -/
def log2Go : Nat → Nat → Nat
  | 0, _ => 0
  | fuel + 1, n => if n ≤ 1 then 0 else log2Go fuel (n / 2) + 1

/-- `⌊log₂ n⌋` (0 for `n ≤ 1`), computable by structural recursion. -/
def natLog2 (n : Nat) : Nat := log2Go n n

/-- Rounding of a non-negative integer to the nearest IEEE-754 double
(53 significant bits, round-to-nearest, ties to even).  JavaScript
arithmetic on integer-valued numbers applies this after every
operation. -/
def jsRound (n : Nat) : Nat :=
  if n < 2 ^ 53 then n
  else
    let k := natLog2 n - 52
    let q := n / 2 ^ k
    let r := n % 2 ^ k
    let half := 2 ^ (k - 1)
    if half < r ∨ (r = half ∧ q % 2 = 1) then (q + 1) * 2 ^ k else q * 2 ^ k

/-- First index `i ≥ start` at which `needle` occurs in `hay`, else −1
(`Buffer.indexOf`); the fuel dominates the number of probed offsets. -/
def bufIndexOfGo (hay needle : List Nat) : Nat → Nat → Int
  | _, 0 => -1
  | i, fuel + 1 =>
    if i + needle.length ≤ hay.length ∧ needle = (hay.drop i).take needle.length
    then (i : Int)
    else bufIndexOfGo hay needle (i + 1) fuel

/-- `Buffer.indexOf(needle, start)`. -/
def bufIndexOfFrom (hay needle : List Nat) (start : Nat) : Int :=
  bufIndexOfGo hay needle start (hay.length + 1 - start)

/-! ### JavaScript default sort (decimal-string order) -/

/-- Decimal-string rendering of a number, as produced by JavaScript
`String(n)` for the integer ranges used here. -/
def jsStr (n : Nat) : List Char := Nat.toDigits 10 n

/-- Lexicographic order on strings of characters (JavaScript `<` on
strings, restricted to the code points produced by `jsStr`). -/
def charListLt : List Char → List Char → Bool
  | [], [] => false
  | [], _ :: _ => true
  | _ :: _, [] => false
  | a :: as, b :: bs =>
    a.toNat < b.toNat || (a.toNat == b.toNat && charListLt as bs)

/-- Insertion of a number into a list kept ascending in decimal-string
order. -/
def insertStr (x : Nat) : List Nat → List Nat
  | [] => [x]
  | y :: ys => if charListLt (jsStr x) (jsStr y) then x :: y :: ys else y :: insertStr x ys

/-- JavaScript `Array.prototype.sort()` with no comparator on an array
of numbers: sorts by decimal-string order (NOT numerically). -/
def jsSortNat (l : List Nat) : List Nat := l.foldr insertStr []

/-! ### Compact difficulty codec (`Util.decodeDiffBits` / `Util.encodeDiffBits`)

The codec lives in `lib/util.js`, outside the translated module. -/

/-- Modelled from the spec: unsigned compact-target decode.  The high
byte of `bits` is an exponent `e`, the low 24 bits are the mantissa
`m`; the target is `m · 256^(e−3)` as an unsigned integer. -/
def decodeDiffBitsUnsigned (bits : Nat) : Nat :=
  let e := bits >>> 24
  let m := bits &&& 0xffffff
  if 3 ≤ e then m * 256 ^ (e - 3) else m / 256 ^ (3 - e)

/-- Modelled from the spec: signed-aware compact-target decode used by
the retarget arithmetic; bit `0x800000` of the mantissa is a sign bit,
the magnitude is the remaining 23 bits times `256^(e−3)`. -/
def decodeDiffBitsSigned (bits : Nat) : Int :=
  let e := bits >>> 24
  let m := bits &&& 0xffffff
  let mag : Int := (m &&& 0x7fffff : Nat)
  let sgn : Int := if m &&& 0x800000 ≠ 0 then -1 else 1
  if 3 ≤ e then sgn * mag * (256 : Int) ^ (e - 3)
  else Int.tdiv (sgn * mag) ((256 : Int) ^ (3 - e))

/-- Number of bytes needed to store `n` (0 for 0). -/
def byteLength (n : Nat) : Nat := if n = 0 then 0 else natLog2 n / 8 + 1

/-- Modelled from the spec: compact-target encoder.  Re-normalizes the
mantissa, clamping it below `0x800000` to avoid the sign bit, so that
`encode(decode(b)) = b` for every `b` produced by a valid encoder. -/
def encodeDiffBits (target : Nat) : Nat :=
  let size := byteLength target
  let compact := if size ≤ 3 then target <<< (8 * (3 - size)) else target >>> (8 * (size - 3))
  if compact &&& 0x800000 ≠ 0 then (compact >>> 8) ||| ((size + 1) <<< 24)
  else compact ||| (size <<< 24)

/-! ### Data model -/

/-- `Util.NULL_HASH`: 32 zero bytes. -/
def NULL_HASH : List Nat := List.replicate 32 0

/-- Modelled from the spec: the reserved COINBASE outpoint (a null
previous-output reference: 32 zero bytes and index `0xffffffff`). -/
def COINBASE_OP : List Nat := List.replicate 32 0 ++ [255, 255, 255, 255]

/-- A transaction input (`TransactionIn`): script `s`, sequence `q`,
outpoint `o`). -/
structure TransactionIn where
  s : List Nat := []
  q : Nat := 0
  o : List Nat := []
deriving Repr, DecidableEq, Inhabited

/-- A transaction output (`TransactionOut`): value `v`, script `s`. -/
structure TransactionOut where
  v : Nat := 0
  s : List Nat := []
deriving Repr, DecidableEq, Inhabited

/-- Modelled from the spec: the transaction module exposes ordered
inputs and outputs; hashing is the external parameter `txHash`. -/
structure Transaction where
  ins : List TransactionIn := []
  outs : List TransactionOut := []
deriving Repr, DecidableEq, Inhabited

/-- Modelled from the spec: coinbase classification — the first input
does not spend a prior output, i.e. its outpoint is the reserved
COINBASE outpoint and it is the only input. -/
def Transaction.isCoinBase (t : Transaction) : Bool :=
  match t.ins with
  | [i0] => i0.o == COINBASE_OP
  | _ => false

/-- Network configuration consumed by the block module
(`cfg.network.*`). -/
structure NetworkCfg where
  altChain : Bool := false
  auxPOWFlag : Nat := 0
  auxPOWChain : Nat := 0
  fullRetargetStart : Nat := 0
deriving Repr, DecidableEq, Inhabited

/-- The header-carrying fields of a `Block` (defaults as assigned by
the constructor; a missing stored hash is the empty buffer). -/
structure BlockCore where
  hash : List Nat := []
  prev_hash : List Nat := NULL_HASH
  merkle_root : List Nat := NULL_HASH
  timestamp : Nat := 0
  bits : Nat := 0
  nonce : Nat := 0
  version : Nat := 0
  height : Nat := 0
deriving Repr, DecidableEq, Inhabited

/-- The AuxPoW substructure (`this.aux`), present on alt chains.  The
parent is a plain header block: the recursion stops after one level
because the parent is constructed with a default (non-alt)
configuration. -/
structure AuxData where
  coinbase : Transaction := {}
  coinbase_branch : List (List Nat) := []
  coinbase_branch_mask : Nat := 0
  parent : BlockCore := {}
  parent_hash : List Nat := NULL_HASH
  blockchain_branch : List (List Nat) := []
  blockchain_branch_mask : Nat := 0
deriving Repr, DecidableEq, Inhabited

/-- A `Block`: header fields plus configuration and the optional AuxPoW
substructure. -/
structure Block extends BlockCore where
  cfg : NetworkCfg := {}
  aux : Option AuxData := none
deriving Repr, DecidableEq, Inhabited

/-- Errors surfaced by the translated code: `VerificationError` with
its message, a JavaScript `TypeError` (e.g. a property access on
`undefined`), and an error delivered by the block store. -/
inductive JsError where
  | verification (msg : String)
  | typeError
  | storeError
deriving Repr, DecidableEq, Inhabited

/-! ### Header assembly and hashing -/

/-- `Block.prototype.getHeader`: the 80-byte header serialization. -/
def getHeader (b : BlockCore) : List Nat :=
  word32le b.version ++ b.prev_hash ++ b.merkle_root
    ++ word32le b.timestamp ++ word32le b.bits ++ word32le b.nonce

/-- `Block.prototype.calcHash`: double-SHA-256 of the header. -/
def calcHash (H2 : List Nat → List Nat) (b : BlockCore) : List Nat :=
  H2 (getHeader b)

/-- `Block.prototype.checkHash`: false when no hash is stored, else
whether the stored hash equals the recomputed one. -/
def checkHash (H2 : List Nat → List Nat) (b : BlockCore) : Bool :=
  if b.hash.length = 0 then false
  else bufCompare (calcHash H2 b) b.hash == Ordering.eq

/-- `Block.prototype.getHash`: the stored hash when present, otherwise
the freshly computed one (which the source then caches). -/
def getHash (H2 : List Nat → List Nat) (b : BlockCore) : List Nat :=
  if b.hash.length = 0 then calcHash H2 b else b.hash

/-- `Block.prototype.getAuxChainID`: high 16 bits of `version`. -/
def getAuxChainID (b : Block) : Nat := b.version >>> 16

/-- `Block.prototype.isAuxPOW`: alt-chain configuration and the AuxPoW
flag bit set in `version`. -/
def isAuxPOW (b : Block) : Bool :=
  b.cfg.altChain && (b.version &&& b.cfg.auxPOWFlag) != 0

/-! ### Merkle engine (`getMerkleTree`, `calcMerkleRoot`, `calcMerkleBranch`) -/

/-- The inner loop of `getMerkleTree`: for `i = 0, 2, 4, … < size` it
pushes `H2(tree[j+i] ‖ tree[j+i2])` with `i2 = min(i+1, size−1)`.  The
fuel dominates the number of iterations (`⌈size/2⌉ ≤ size`). -/
def pairUp (H2 : List Nat → List Nat) (tree : List (List Nat)) (j size : Nat) :
    Nat → Nat → List (List Nat)
  | _, 0 => []
  | i, fuel + 1 =>
    if i < size then
      H2 (tree.getD (j + i) [] ++ tree.getD (j + min (i + 1) (size - 1)) [])
        :: pairUp H2 tree j size (i + 2) fuel
    else []

/-- The outer loop of `getMerkleTree`: appends one level of parent
hashes per iteration, advancing `j` by `size` and halving `size`
(rounding up), until `size ≤ 1`.  The fuel dominates the number of
levels (`⌈log₂ size⌉ ≤ size`). -/
def merkleLoop (H2 : List Nat → List Nat) :
    Nat → List (List Nat) → Nat → Nat → List (List Nat)
  | 0, tree, _, _ => tree
  | fuel + 1, tree, j, size =>
    if 1 < size then
      merkleLoop H2 fuel (tree ++ pairUp H2 tree j size 0 size) (j + size) ((size + 1) / 2)
    else tree

/-- `Block.prototype.getMerkleTree` over a list of leaf hashes (the
source first maps transactions to their hashes; hashes pass through
unchanged).  An empty leaf list yields a single zero-hash. -/
def getMerkleTree (H2 : List Nat → List Nat) (leaves : List (List Nat)) : List (List Nat) :=
  if leaves.length = 0 then [NULL_HASH]
  else merkleLoop H2 leaves.length leaves 0 leaves.length

/-- `Block.prototype.calcMerkleRoot` applied to leaf hashes: the last
element of the flattened tree. -/
def calcMerkleRootLeaves (H2 : List Nat → List Nat) (leaves : List (List Nat)) : List Nat :=
  let tree := getMerkleTree H2 leaves
  tree.getD (tree.length - 1) []

/-- `Block.prototype.calcMerkleRoot` on a transaction list. -/
def calcMerkleRoot (H2 : List Nat → List Nat) (txHash : Transaction → List Nat)
    (txs : List Transaction) : List Nat :=
  calcMerkleRootLeaves H2 (txs.map txHash)

/-- `this.calcMerkleRoot()` called with NO argument, as done by
`checkMerkleRoot`: `getMerkleTree` then reads `.length` of `undefined`
and the call throws a `TypeError`. -/
def calcMerkleRootJs (H2 : List Nat → List Nat) (txHash : Transaction → List Nat)
    (txs : Option (List Transaction)) : Except JsError (List Nat) :=
  match txs with
  | none => .error .typeError
  | some ts => .ok (calcMerkleRoot H2 txHash ts)

/-- JavaScript ToInt32: wrap an integer into the signed 32-bit range
`[-2^31, 2^31)`, as applied to the operands of `&` and `>>`. -/
def jsToInt32 (n : Int) : Int := (n + 2 ^ 31) % 2 ^ 32 - 2 ^ 31

/-- `Block.prototype.calcMerkleBranch`: folds the sibling list over the
working hash, placing the sibling on the left when the low bit of the
(shifting) mask is set and on the right otherwise.  The JavaScript
operators `mask & 1` and `mask >> 1` first coerce the mask with
ToInt32; the low bit of the two's-complement value is its nonnegative
remainder mod 2, and the shift is arithmetic (sign-extending), which is
`Int.shiftRight` on the wrapped value. -/
def calcMerkleBranch (H2 : List Nat → List Nat) (inputHash : List Nat)
    (branch : List (List Nat)) (mask : Nat) : List Nat :=
  (branch.foldl
    (fun wm otherside =>
      (if jsToInt32 wm.2 % 2 = 1 then H2 (otherside ++ wm.1) else H2 (wm.1 ++ otherside),
       Int.shiftRight (jsToInt32 wm.2) 1))
    (inputHash, (mask : Int))).1

/-! ### Specification-side Merkle definitions (for the refinement
claims; these follow the spec text, not the source). -/

/-- One level-building step as the spec words it: pair elements
`(2i, 2i+1)`, duplicating the left element when the right sibling is
missing; the parent is `H2(left ‖ right)`. -/
def merkleStepSpec (H2 : List Nat → List Nat) : List (List Nat) → List (List Nat)
  | [] => []
  | [a] => [H2 (a ++ a)]
  | a :: b :: rest => H2 (a ++ b) :: merkleStepSpec H2 rest

/-- The list of levels as the spec words it: level 0 is the leaf array
in order; each subsequent level is one `merkleStepSpec`; building stops
at a level of size ≤ 1. -/
def merkleLevelsSpec (H2 : List Nat → List Nat) (lvl : List (List Nat)) :
    List (List (List Nat)) :=
  if h : lvl.length ≤ 1 then [lvl]
  else lvl :: merkleLevelsSpec H2 (merkleStepSpec H2 lvl)
termination_by lvl.length
decreasing_by
  have key : ∀ (n : Nat) (m : List (List Nat)), m.length ≤ n →
      (merkleStepSpec H2 m).length = (m.length + 1) / 2 := by
    intro n
    induction n with
    | zero =>
      intro m hm
      have : m = [] := List.eq_nil_of_length_eq_zero (Nat.le_zero.mp hm)
      subst this; rfl
    | succ n ih =>
      intro m hm
      rcases m with _ | ⟨a, _ | ⟨b, rest⟩⟩
      · simp [merkleStepSpec]
      · simp [merkleStepSpec]
      · have hr : rest.length ≤ n := by
          simp only [List.length_cons] at hm; omega
        simp only [merkleStepSpec, List.length_cons, ih rest hr]
        omega
  simp only [key lvl.length lvl (Nat.le_refl _)]
  omega

/-- Branch verification as the spec words it: fold the siblings over
the accumulator, `H2(acc ‖ sibling)` when the low bit of the remaining
mask is 0, `H2(sibling ‖ acc)` when it is 1, shifting the mask right. -/
def verifyBranchSpec (H2 : List Nat → List Nat) :
    List Nat → List (List Nat) → Nat → List Nat
  | acc, [], _ => acc
  | acc, s :: rest, mask =>
    verifyBranchSpec H2 (if mask % 2 = 0 then H2 (acc ++ s) else H2 (s ++ acc)) rest (mask / 2)

/-- Modelled from the spec: the AuxPoW coinbase mask rule of the
reference implementation — a linear congruential generator on the
nonce, every step performed modulo 2^32. -/
def auxMaskSpec (nonce chainId size : Nat) : Nat :=
  let r1 := (nonce * 1103515245 + 12345) % 2 ^ 32
  let r2 := (r1 + chainId) % 2 ^ 32
  let r3 := (r2 * 1103515245 + 12345) % 2 ^ 32
  r3 % size

/-! ### Validator -/

/-- `BlockRules.largestHash`: `2^256`. -/
def largestHash : Nat := 2 ^ 256

/-- `BlockRules.maxTimeOffset`: how far block timestamps may run into
the future. -/
def maxTimeOffset : Nat := 2 * 60 * 60

/-- `Block.prototype.getWork`: expected number of hash tries to meet
this block's target, `⌊2^256 / (target + 1)⌋` on the unsigned decoding
of `bits`. -/
def getWork (b : Block) : Nat :=
  largestHash / (decodeDiffBitsUnsigned b.bits + 1)

/-- `Block.prototype.checkTimestamp` with the wall clock injected:
fails iff `timestamp > now + maxTimeOffset`. -/
def checkTimestamp (now : Nat) (b : BlockCore) : Except JsError Bool :=
  if b.timestamp > now + maxTimeOffset then
    .error (.verification "Timestamp too far into the future")
  else .ok true

/-- `Block.prototype.checkTransactions`: non-empty, first transaction
coinbase, no other transaction coinbase. -/
def checkTransactions (txs : List Transaction) : Except JsError Bool :=
  match txs with
  | [] => .error (.verification "No transactions")
  | t0 :: rest =>
    if !t0.isCoinBase then .error (.verification "First tx must be coinbase")
    else if rest.any Transaction.isCoinBase then
      .error (.verification "Tx index must not be coinbase")
    else .ok true

/-- `Block.prototype.checkMerkleRoot`.  Faithful to the source: the
`txs` parameter is accepted but IGNORED — the body calls
`this.calcMerkleRoot()` with no argument — and the comparison throws
when the recomputed root EQUALS the stored one. -/
def checkMerkleRoot (H2 : List Nat → List Nat) (txHash : Transaction → List Nat)
    (b : Block) (txs : Option (List Transaction)) : Except JsError Bool :=
  if b.merkle_root.length = 0 then .error (.verification "No merkle root")
  else
    match calcMerkleRootJs H2 txHash none with
    | .error e => .error e
    | .ok root =>
      if bufCompare root b.merkle_root == Ordering.eq then
        .error (.verification "Merkle root incorrect")
      else .ok true

/-- The hash-selection step of `checkProofOfWork`: on an AuxPoW block,
check the aux chain id and use the parent header hash via `getHash()`;
otherwise use this block's own `getHash()`. -/
def powHashSel (H2 : List Nat → List Nat) (b : Block) : Except JsError (List Nat) :=
  if isAuxPOW b then
    match b.aux with
    | none => .error .typeError
    | some a =>
      if getAuxChainID b ≠ b.cfg.auxPOWChain then
        .error (.verification "Auxiliary Chain ID is not our chain")
      else .ok (getHash H2 a.parent)
  else .ok (getHash H2 b.toBlockCore)

/-- `Block.prototype.checkProofOfWork`: select the proof-of-work hash,
reverse its bytes to big-endian, and fail iff it compares greater than
the 32-byte target decoded from `bits`.  (The parent-hash mismatch on
AuxPoW blocks is logged by the source, not raised.) -/
def checkProofOfWork (H2 : List Nat → List Nat) (b : Block) : Except JsError Bool :=
  match powHashSel H2 b with
  | .error e => .error e
  | .ok h =>
    if bufCompare h.reverse (natToBytesBE 32 (decodeDiffBitsUnsigned b.bits)) == Ordering.gt
    then .error (.verification "Difficulty target not met")
    else .ok true

/-- `Block.prototype.checkMerkleLink`: the aux coinbase transaction
must prove into the parent block's Merkle root. -/
def checkMerkleLink (H2 : List Nat → List Nat) (txHash : Transaction → List Nat)
    (b : Block) : Except JsError Unit :=
  match b.aux with
  | none => .error .typeError
  | some a =>
    let txnHash := txHash a.coinbase
    let linkCheck := calcMerkleBranch H2 txnHash a.coinbase_branch a.coinbase_branch_mask
    if bufCompare linkCheck a.parent.merkle_root != Ordering.eq then
      .error (.verification "AuxPOW Merkle Link verification failed")
    else .ok ()

/-- JavaScript `1 << n`: the shift count is taken mod 32 and the result
is a signed 32-bit value (so a count of 31 yields −2^31). -/
def jsShl1 (n : Nat) : Int :=
  let c := n % 32
  if c = 31 then -(2 ^ 31 : Int) else (2 : Int) ^ c

/-- The size/nonce tail of `checkAuxCoinbase`: read `size` and `nonce`
as little-endian 32-bit words at `hash_index+32` and `hash_index+36`,
require `size == 1 << branch length`, then run the coinbase-mask
check.  The `rand` evolution is JavaScript double-precision arithmetic:
every multiplication and addition is rounded to 53 significant bits
(`jsRound`) and NO modulo 2^32 reduction is performed. -/
def checkAuxCoinbaseTail (script : List Nat) (hashIndex : Nat) (branchLen branchMask auxChain : Nat) :
    Except JsError Bool :=
  let size := readUInt32LE script (hashIndex + 32)
  let nonce := readUInt32LE script (hashIndex + 32 + 4)
  if (size : Int) ≠ jsShl1 branchLen then
    .error (.verification "AuxPOW merkle branch size does not match coinbase")
  else
    let rand := nonce
    let rand := jsRound (jsRound (rand * 1103515245) + 12345)
    let rand := jsRound (rand + auxChain)
    let rand := jsRound (jsRound (rand * 1103515245) + 12345)
    if branchMask ≠ rand % size then
      .error (.verification "AuxPOW blockchain bitmask does not match coinbase script")
    else .ok true

/-- `Block.prototype.checkAuxCoinbase`: locate the embedded hash (the
aggregated blockchain-branch root when several aux chains are merged,
else this block's own hash, byte-reversed) in the parent coinbase
script, validate its position against the merged-mining tag
`FA BE 6D 6D`, then run `checkAuxCoinbaseTail` at its offset. -/
def checkAuxCoinbase (H2 : List Nat → List Nat) (b : Block) : Except JsError Bool :=
  match b.aux with
  | none => .error .typeError
  | some a =>
    match a.coinbase.ins.head? with
    | none => .error .typeError
    | some in0 =>
      let script := in0.s
      let mergedMiningHeader : List Nat := [0xFA, 0xBE, 0x6d, 0x6d]
      let headIndex := bufIndexOfFrom script mergedMiningHeader 0
      let hashRes : Except JsError Int :=
        if 0 < a.blockchain_branch.length then
          let linkCheck := (calcMerkleBranch H2 (getHash H2 b.toBlockCore)
            a.blockchain_branch a.blockchain_branch_mask).reverse
          let hashIndex := bufIndexOfFrom script linkCheck 0
          if hashIndex < 0 then
            .error (.verification "AuxPOW blockchain hash not found in coinbase script")
          else .ok hashIndex
        else
          let blockHash := (calcHash H2 b.toBlockCore).reverse
          let hashIndex := bufIndexOfFrom script blockHash 0
          if hashIndex < 0 then
            .error (.verification "AuxPOW block hash not found in coinbase script")
          else .ok hashIndex
      match hashRes with
      | .error e => .error e
      | .ok hashIndex =>
        if 0 ≤ headIndex then
          if 0 ≤ bufIndexOfFrom script mergedMiningHeader (headIndex.toNat + 1) then
            .error (.verification "AuxPOW coinbase script header not found")
          else if headIndex + 4 ≠ hashIndex then
            .error (.verification "AuxPOW block hash does not follow the merged mining header in coinbase script")
          else
            checkAuxCoinbaseTail script hashIndex.toNat a.blockchain_branch.length
              a.blockchain_branch_mask b.cfg.auxPOWChain
        else
          if 20 < hashIndex then
            .error (.verification "AuxPow block hash must start in the first 20 bytes of the coinbase script")
          else
            checkAuxCoinbaseTail script hashIndex.toNat a.blockchain_branch.length
              a.blockchain_branch_mask b.cfg.auxPOWChain

/-- `Block.prototype.checkBlock` with the wall clock injected: hash
check, proof of work, timestamp, AuxPoW linkage, then (when `txs` is
supplied) transaction sanity and the Merkle-root check. -/
def checkBlock (H2 : List Nat → List Nat) (txHash : Transaction → List Nat)
    (now : Nat) (b : Block) (txs : Option (List Transaction)) : Except JsError Bool :=
  if !checkHash H2 b.toBlockCore then .error (.verification "Block hash invalid")
  else
    match checkProofOfWork H2 b with
    | .error e => .error e
    | .ok _ =>
      match checkTimestamp now b.toBlockCore with
      | .error e => .error e
      | .ok _ =>
        match
          (if isAuxPOW b then
            match checkMerkleLink H2 txHash b with
            | .error e => .error e
            | .ok _ => checkAuxCoinbase H2 b
          else .ok true : Except JsError Bool) with
        | .error e => .error e
        | .ok _ =>
          match txs with
          | none => .ok true
          | some ts =>
            match checkTransactions ts with
            | .error e => .error e
            | .ok _ =>
              match checkMerkleRoot H2 txHash b txs with
              | .error e => .error e
              | .ok v => if !v then .error (.verification "Merkle hash invalid") else .ok true

/-! ### Chain-lookup interface and retarget / time rules -/

/-- The narrow synchronous view of the block store consumed by the
block module: network parameters and height-indexed lookup (a `none`
result models a store error, which the source re-throws into the
callback). -/
structure Chain where
  getMinDiff : Nat := 0
  getTargetTimespan : Nat := 0
  getTargetSpacing : Nat := 0
  isTestnet : Bool := false
  getBlockByHeight : Int → Option BlockCore := fun _ => none
  getTopBlock : BlockCore := {}

/-- `medianTimeSpan`. -/
def medianTimeSpan : Nat := 11

/-- The testnet walk of `getNextWork` (`lookForLastNonMinDiff`):
recurse backwards through the store until a block is found that is a
retarget boundary or has non-minimum difficulty, and deliver its
`bits`.  The fuel dominates the walk length for any height-consistent
store (the heights queried strictly decrease); on exhaustion a store
error is delivered, a case no height-consistent store reaches. -/
def lookForLastNonMinDiff (chain : Chain) (powLimit interval : Nat) :
    Nat → BlockCore → List (Except JsError Nat)
  | 0, _ => [.error .storeError]
  | fuel + 1, block =>
    if 0 < block.height ∧ block.height % interval ≠ 0 ∧ block.bits = powLimit then
      match chain.getBlockByHeight ((block.height : Int) - 1) with
      | none => [.error .storeError]
      | some lastBlock => lookForLastNonMinDiff chain powLimit interval fuel lastBlock
    else [.ok block.bits]

/-- `Block.prototype.getNextWork`, modelled as the list of values the
continuation-passing source DELIVERS TO ITS CALLBACK, in order.  The
genesis branch (`height == 0`) invokes the callback and then FALLS
THROUGH (there is no `return`), so a genesis block produces two
deliveries.  `interval` is `targetTimespan / targetSpacing`, modelled
as integer division: it agrees with the source's float division
exactly when the spacing divides the timespan (the canonical
configuration; theorems about the retarget branch carry that
divisibility hypothesis, and `timespan/4` likewise).  The anchor
height `height − interval + 1 (− 1)` is signed arithmetic and the
block store is indexed by `Int`, so a negative index is looked up as
such (and fails on any height-keyed store). -/
def getNextWork (chain : Chain) (self : Block) (nextBlock : BlockCore) :
    List (Except JsError Nat) :=
  let powLimit := chain.getMinDiff
  let powLimitTarget := decodeDiffBitsSigned powLimit
  let targetTimespan := chain.getTargetTimespan
  let targetSpacing := chain.getTargetSpacing
  let interval := targetTimespan / targetSpacing
  (if self.height = 0 then [Except.ok self.bits] else [])
  ++
  (if (self.height + 1) % interval ≠ 0 then
    (if chain.isTestnet then
      (if self.timestamp + targetSpacing * 2 < nextBlock.timestamp then
        [Except.ok powLimit]
      else if self.bits ≠ powLimit then
        [Except.ok self.bits]
      else
        lookForLastNonMinDiff chain powLimit interval (self.height + 1) self.toBlockCore)
    else [Except.ok self.bits])
  else
    (let targetHeight : Int := (self.height : Int) - (interval : Int) + 1
    let targetHeight :=
      if 0 < self.cfg.fullRetargetStart ∧ self.cfg.fullRetargetStart ≤ self.height then
        targetHeight - 1
      else targetHeight
    match chain.getBlockByHeight targetHeight with
    | none => [Except.error .storeError]
    | some lastBlock =>
      let actual0 : Int := (self.timestamp : Int) - (lastBlock.timestamp : Int)
      let actual1 : Int :=
        if actual0 < ((targetTimespan / 4 : Nat) : Int) then ((targetTimespan / 4 : Nat) : Int)
        else actual0
      let actual2 : Int :=
        if ((targetTimespan * 4 : Nat) : Int) < actual1 then ((targetTimespan * 4 : Nat) : Int)
        else actual1
      let oldTarget := decodeDiffBitsSigned self.bits
      let newTarget := Int.tdiv (oldTarget * actual2) (targetTimespan : Int)
      let newTarget := if powLimitTarget < newTarget then powLimitTarget else newTarget
      [Except.ok (encodeDiffBits newTarget.toNat)]))

/-- `Block.prototype.getMedianTimePast`: fetch the timestamps of the
last `min(11, height+1)` blocks ending at this one, sort them with the
JavaScript default (decimal-string) sort, and return the element at
index `⌊len/2⌋`. -/
def getMedianTimePast (chain : Chain) (self : Block) : Except JsError Nat :=
  let heights := (List.range (min medianTimeSpan (self.height + 1))).map
    (fun i => (self.height : Int) - (i : Int))
  match heights.mapM chain.getBlockByHeight with
  | none => .error .storeError
  | some blocks =>
    let timestamps := blocks.map (·.timestamp)
    let sorted := jsSortNat timestamps
    .ok (sorted.getD (sorted.length / 2) 0)

/-! ### Builder -/

/-- `Util.COIN`: the number of base units per coin (modelled from the
spec: `COIN = 10^8`). -/
def COIN : Nat := 100000000

/-- `Block.getBlockValue`: the subsidy halving schedule. -/
def getBlockValue (height : Nat) : Nat :=
  50 * COIN / 2 ^ (height / 210000)

/-- `Block.prototype.createCoinbaseTx`: one input with empty script,
sequence `0xffffffff` and the reserved COINBASE outpoint; one output
paying the block value to the beneficiary (script construction
`Script.createPubKeyOut` is external, passed as `pubKeyScript`). -/
def createCoinbaseTx (pubKeyScript : List Nat → List Nat) (b : Block)
    (beneficiary : List Nat) : Transaction :=
  { ins := [{ s := [], q := 0xffffffff, o := COINBASE_OP }],
    outs := [{ v := getBlockValue b.height, s := pubKeyScript beneficiary }] }

/-- The value a `getNextWork` delivery list hands to the next `Step`
function: its first delivery (see the note on `getNextWork` for the
genesis double delivery, which is settled separately). -/
def firstDelivery (l : List (Except JsError Nat)) : Except JsError Nat :=
  match l with
  | [] => .error .storeError
  | x :: _ => x

/-- The result of `prepareNextBlock`: the draft block and its
transaction list. -/
structure PrepResult where
  block : Block := {}
  txs : List Transaction := []
deriving Repr, DecidableEq, Inhabited

/-- `Block.prototype.prepareNextBlock` with the wall clock injected.
A fresh block (all header fields zero, in particular `timestamp = 0`)
is created first; `getNextWork` is called with THAT draft as the next
block, and only afterwards are `bits`, `version`, `timestamp`,
`prev_hash`, `height` and `merkle_root` assigned.  A falsy `time`
argument (absent or 0) selects `max(medianTimePast + 1, now)`. -/
def prepareNextBlock (H2 : List Nat → List Nat) (txHash : Transaction → List Nat)
    (pubKeyScript : List Nat → List Nat) (chain : Chain) (self : Block)
    (beneficiary : List Nat) (time : Option Nat) (now : Nat) :
    Except JsError PrepResult :=
  let newBlock0 : Block := { cfg := self.cfg }
  match getMedianTimePast chain self with
  | .error e => .error e
  | .ok medianTimePast =>
    let t :=
      match time with
      | none => max (medianTimePast + 1) now
      | some v => if v = 0 then max (medianTimePast + 1) now else v
    match firstDelivery (getNextWork chain self newBlock0.toBlockCore) with
    | .error e => .error e
    | .ok nextWork =>
      let newBlock1 : Block :=
        { newBlock0 with
          bits := nextWork
          version := 1
          timestamp := t
          prev_hash := getHash H2 self.toBlockCore
          height := self.height + 1 }
      let tx := createCoinbaseTx pubKeyScript newBlock1 beneficiary
      let txs := [tx]
      .ok { block := { newBlock1 with merkle_root := calcMerkleRoot H2 txHash txs },
            txs := txs }

/-! ### Concrete instances used to settle the claims

Hash functions are instantiated with constant functions: every claim
under test is structural in `H2`, so any computable instance
exercises the translated control flow. -/

/-- A constant hash function returning 32 zero bytes. -/
def hashZeros : List Nat → List Nat := fun _ => List.replicate 32 0

/-- A constant hash function returning 32 bytes of 7. -/
def hashSevens : List Nat → List Nat := fun _ => List.replicate 32 7

/-- A constant transaction-hash function returning 32 bytes of 5. -/
def txHashFives : Transaction → List Nat := fun _ => List.replicate 32 5

/-- A coinbase transaction (single input at the reserved outpoint). -/
def cbTx : Transaction :=
  { ins := [{ s := [], q := 0xffffffff, o := COINBASE_OP }], outs := [] }

/-- C1 instance: a block whose stored hash matches `hashZeros`, whose
proof of work passes, and whose stored Merkle root equals the root the
tree builder computes for `[cbTx]` under `txHashFives`. -/
def c1Block : Block :=
  { hash := List.replicate 32 0
    merkle_root := List.replicate 32 5
    bits := 0x1d00ffff }

/-- C2 counterexample instance: a non-AuxPoW block whose STORED hash is
32 `0xff` bytes (numerically above the target) while its freshly
computed header hash under `hashZeros` is 32 zero bytes (below the
target). -/
def c2Block : Block :=
  { hash := List.replicate 32 255
    bits := 0x1d00ffff }

/-- C2 witness instance: a block with no stored hash, so the selected
hash is the freshly computed all-zero hash, which meets the target. -/
def c2wBlock : Block :=
  { hash := []
    bits := 0x1d00ffff }

/-- C3 instance: the timestamps `[7,2,5,1,9,3,8,4,6,10,11]` assigned to
heights 10 down to 0 (fetch order is descending height). -/
def c3Timestamps : List Nat := [7, 2, 5, 1, 9, 3, 8, 4, 6, 10, 11]

/-- C3 instance: an eleven-block store serving `c3Timestamps`. -/
def c3Chain : Chain :=
  { getBlockByHeight := fun h =>
      if 0 ≤ h ∧ h ≤ 10 then
        some { timestamp := c3Timestamps.getD (10 - h.toNat) 0, height := h.toNat }
      else none }

/-- C3 instance: the block of height 10 whose median-time-past is
queried. -/
def c3Self : Block := { height := 10 }

/-- C4 instance: the parent coinbase script — the embedded aggregated
hash (32 bytes of 7) at offset 0, then `size = 2` and
`nonce = 4294967294`, both little-endian. -/
def c4Script : List Nat :=
  List.replicate 32 7 ++ [2, 0, 0, 0] ++ [254, 255, 255, 255]

/-- C4 instance: an AuxPoW block on aux chain 1 with a one-element
blockchain branch (so `size = 2`) and branch mask 1 — the value the
reference (mod 2^32) LCG derives from the embedded nonce. -/
def c4Block : Block :=
  { cfg := { altChain := true, auxPOWFlag := 256, auxPOWChain := 1 }
    aux := some
      { coinbase := { ins := [{ s := c4Script, q := 0xffffffff, o := COINBASE_OP }] }
        blockchain_branch := [List.replicate 32 3]
        blockchain_branch_mask := 1 } }

/-- C5 witness instance: canonical mainnet parameters with the anchor
block (height 0, timestamp 0) in the store. -/
def c5Chain : Chain :=
  { getMinDiff := 0x1d00ffff
    getTargetTimespan := 1209600
    getTargetSpacing := 600
    getBlockByHeight := fun h => if h = 0 then some { height := 0, timestamp := 0 } else none }

/-- C5 witness instance: the block closing the first retarget period,
eight weeks (4 × the target timespan) after the anchor. -/
def c5Self : Block :=
  { height := 2015
    timestamp := 4838400
    bits := 0x1d00ffff }

/-- C6 instance: a testnet chain with canonical spacing and a minimum
difficulty different from the genesis `bits`. -/
def c6Chain : Chain :=
  { getMinDiff := 0x1c00ffff
    getTargetTimespan := 1209600
    getTargetSpacing := 600
    isTestnet := true }

/-- C6 instance: a genesis block. -/
def c6Genesis : Block := { height := 0, bits := 0x1d00ffff, timestamp := 0 }

/-- C6 instance: a successor draft whose timestamp exceeds the
testnet min-difficulty threshold (`0 + 2·600 < 1201`). -/
def c6Next : BlockCore := { timestamp := 1201 }

/-- C10 instance: a single-block store under canonical parameters. -/
def c10Chain : Chain :=
  { getTargetTimespan := 1209600
    getTargetSpacing := 600
    getBlockByHeight := fun h => if h = 0 then some {} else none }

/-- C10 instance: the chain tip being extended. -/
def c10Self : Block := { height := 0, bits := 17, hash := List.replicate 32 2 }

/-- C10 instance: a constant transaction hash (32 bytes of 1). -/
def txHashOnes : Transaction → List Nat := fun _ => List.replicate 32 1

/-- C10 instance: a trivial beneficiary script constructor. -/
def pkScriptNil : List Nat → List Nat := fun _ => []

/-- C10 instance: the draft produced with `time = some 5`. -/
def c10w1 : PrepResult :=
  (prepareNextBlock hashZeros txHashOnes pkScriptNil c10Chain c10Self [] (some 5) 0).toOption.getD default

/-- C10 instance: the draft produced with `time = some 99999`. -/
def c10w2 : PrepResult :=
  (prepareNextBlock hashZeros txHashOnes pkScriptNil c10Chain c10Self [] (some 99999) 0).toOption.getD default

/-! ### Helper lemmas: big-endian byte values and buffer comparison -/

theorem bytesBE_go (l : List Nat) :
    ∀ acc : Nat, List.foldl (fun a b => a * 256 + b) acc l = acc * 256 ^ l.length + bytesBE l := by
  induction l with
  | nil => intro acc; simp [bytesBE]
  | cons x xs ih =>
    intro acc
    have hb : bytesBE (x :: xs) = x * 256 ^ xs.length + bytesBE xs := by
      simp only [bytesBE, List.foldl_cons, Nat.zero_mul, Nat.zero_add]
      exact ih x
    simp only [List.foldl_cons, List.length_cons]
    rw [ih (acc * 256 + x), hb]
    ring

theorem bytesBE_cons (x : Nat) (xs : List Nat) :
    bytesBE (x :: xs) = x * 256 ^ xs.length + bytesBE xs := by
  simp only [bytesBE, List.foldl_cons, Nat.zero_mul, Nat.zero_add]
  exact bytesBE_go xs x

theorem bytesBE_lt {l : List Nat} (hl : ∀ x ∈ l, x < 256) : bytesBE l < 256 ^ l.length := by
  induction l with
  | nil => simp [bytesBE]
  | cons x xs ih =>
    rw [bytesBE_cons, List.length_cons]
    have hx : x < 256 := hl x (List.mem_cons_self x xs)
    have hxs : bytesBE xs < 256 ^ xs.length := ih fun y hy => hl y (List.mem_cons_of_mem x hy)
    calc x * 256 ^ xs.length + bytesBE xs
        < (x + 1) * 256 ^ xs.length := by nlinarith
      _ ≤ 256 * 256 ^ xs.length := Nat.mul_le_mul_right _ hx
      _ = 256 ^ (xs.length + 1) := by ring

theorem bufCompare_gt_iff : ∀ (a b : List Nat), a.length = b.length →
    (∀ x ∈ a, x < 256) → (∀ x ∈ b, x < 256) →
    (bufCompare a b = Ordering.gt ↔ bytesBE b < bytesBE a)
  | [], [], _, _, _ => by simp [bufCompare]
  | [], _ :: _, h, _, _ => by simp at h
  | _ :: _, [], h, _, _ => by simp at h
  | x :: xs, y :: ys, h, ha, hb => by
    have hlen : xs.length = ys.length := by simpa using h
    have hx : x < 256 := ha x (List.mem_cons_self _ _)
    have hy : y < 256 := hb y (List.mem_cons_self _ _)
    have hxs : ∀ v ∈ xs, v < 256 := fun v hv => ha v (List.mem_cons_of_mem _ hv)
    have hys : ∀ v ∈ ys, v < 256 := fun v hv => hb v (List.mem_cons_of_mem _ hv)
    have hbx : bytesBE xs < 256 ^ ys.length := hlen ▸ bytesBE_lt hxs
    have hby : bytesBE ys < 256 ^ ys.length := bytesBE_lt hys
    rw [bytesBE_cons, bytesBE_cons, hlen]
    simp only [bufCompare]
    rcases Nat.lt_trichotomy x y with h1 | h1 | h1
    · rw [if_pos h1]
      have hstep : (x + 1) * 256 ^ ys.length ≤ y * 256 ^ ys.length :=
        Nat.mul_le_mul_right _ h1
      constructor
      · intro hc; exact Ordering.noConfusion hc
      · intro hc; exact absurd hc (by nlinarith)
    · subst h1
      rw [if_neg (by omega), if_neg (by omega)]
      rw [bufCompare_gt_iff xs ys hlen hxs hys]
      exact (Nat.add_lt_add_iff_left (k := x * 256 ^ ys.length)).symm
    · rw [if_neg (by omega), if_pos h1]
      have hstep : (y + 1) * 256 ^ ys.length ≤ x * 256 ^ ys.length :=
        Nat.mul_le_mul_right _ h1
      exact iff_of_true rfl (by nlinarith)

theorem natToBytesBE_length : ∀ (k n : Nat), (natToBytesBE k n).length = k
  | 0, _ => rfl
  | k + 1, n => by simp [natToBytesBE, natToBytesBE_length k]

theorem natToBytesBE_bytes_lt : ∀ (k n : Nat), ∀ x ∈ natToBytesBE k n, x < 256
  | 0, _ => by simp [natToBytesBE]
  | k + 1, n => by
    simp only [natToBytesBE, List.mem_append, List.mem_singleton]
    rintro x (hx | rfl)
    · exact natToBytesBE_bytes_lt k (n / 256) x hx
    · exact Nat.mod_lt _ (by omega)

theorem bytesBE_append_singleton (l : List Nat) (x : Nat) :
    bytesBE (l ++ [x]) = bytesBE l * 256 + x := by
  simp [bytesBE, List.foldl_append]

theorem bytesBE_natToBytesBE : ∀ (k n : Nat), n < 256 ^ k → bytesBE (natToBytesBE k n) = n
  | 0, n, h => by
    simp only [natToBytesBE, bytesBE, List.foldl_nil]
    omega
  | k + 1, n, h => by
    have hdiv : n / 256 < 256 ^ k := by
      rw [Nat.div_lt_iff_lt_mul (by omega)]
      calc n < 256 ^ (k + 1) := h
        _ = 256 ^ k * 256 := by ring
    simp only [natToBytesBE]
    rw [bytesBE_append_singleton, bytesBE_natToBytesBE k (n / 256) hdiv]
    omega

/-! ### Helper lemmas: the Merkle loops against the level structure -/

theorem merkleStepSpec_length (H2 : List Nat → List Nat) :
    ∀ l : List (List Nat), (merkleStepSpec H2 l).length = (l.length + 1) / 2
  | [] => by simp [merkleStepSpec]
  | [_] => by simp [merkleStepSpec]
  | _ :: _ :: rest => by
    simp only [merkleStepSpec, List.length_cons, merkleStepSpec_length H2 rest]
    omega

theorem pairUp_drop (H2 : List Nat → List Nat) (pre lvl : List (List Nat)) :
    ∀ (fuel i : Nat), lvl.length ≤ i + 2 * fuel →
      pairUp H2 (pre ++ lvl) pre.length lvl.length i fuel
        = merkleStepSpec H2 (lvl.drop i) := by
  intro fuel
  induction fuel with
  | zero =>
    intro i hi
    rw [List.drop_eq_nil_of_le (by omega)]
    simp [pairUp, merkleStepSpec]
  | succ fuel ih =>
    intro i hi
    by_cases hlt : i < lvl.length
    · have hga : (pre ++ lvl).getD (pre.length + i) [] = lvl.getD i [] := by
        rw [List.getD_append_right pre lvl [] _ (by omega), Nat.add_sub_cancel_left]
      simp only [pairUp, if_pos hlt]
      by_cases h2 : i + 1 < lvl.length
      · have hmin : min (i + 1) (lvl.length - 1) = i + 1 := by omega
        have hgb : (pre ++ lvl).getD (pre.length + (i + 1)) [] = lvl.getD (i + 1) [] := by
          rw [List.getD_append_right pre lvl [] _ (by omega), Nat.add_sub_cancel_left]
        rw [hmin, hga, hgb]
        rw [List.drop_eq_getElem_cons (by omega), List.drop_eq_getElem_cons (l := lvl) (by omega)]
        simp only [merkleStepSpec]
        rw [List.getD_eq_getElem lvl [] (by omega), List.getD_eq_getElem lvl [] (by omega)]
        rw [ih (i + 2) (by omega)]
      · have hi1 : i + 1 = lvl.length := by omega
        have hmin : min (i + 1) (lvl.length - 1) = i := by omega
        rw [hmin, hga]
        rw [List.drop_eq_getElem_cons (by omega), List.drop_eq_nil_of_le (by omega)]
        simp only [merkleStepSpec]
        rw [List.getD_eq_getElem lvl [] (by omega)]
        rw [ih (i + 2) (by omega), List.drop_eq_nil_of_le (by omega)]
        simp [merkleStepSpec]
    · simp only [pairUp, if_neg hlt]
      rw [List.drop_eq_nil_of_le (by omega)]
      simp [merkleStepSpec]

theorem merkleStepSpec_ne_nil (H2 : List Nat → List Nat) {lvl : List (List Nat)}
    (h : lvl ≠ []) : merkleStepSpec H2 lvl ≠ [] := by
  have hl : 0 < lvl.length := List.length_pos.mpr h
  have : 0 < (merkleStepSpec H2 lvl).length := by
    rw [merkleStepSpec_length]
    omega
  exact List.length_pos.mp this

theorem merkleLoop_join (H2 : List Nat → List Nat) :
    ∀ (fuel : Nat) (lvl pre : List (List Nat)), lvl ≠ [] → lvl.length ≤ fuel + 1 →
      merkleLoop H2 fuel (pre ++ lvl) pre.length lvl.length
        = pre ++ (merkleLevelsSpec H2 lvl).flatten := by
  intro fuel
  induction fuel with
  | zero =>
    intro lvl pre hne hlen
    have h1 : lvl.length = 1 := by
      have := List.length_pos.mpr hne
      omega
    simp only [merkleLoop]
    rw [merkleLevelsSpec, dif_pos (by omega)]
    simp
  | succ fuel ih =>
    intro lvl pre hne hlen
    by_cases h1 : 1 < lvl.length
    · simp only [merkleLoop, if_pos h1]
      rw [pairUp_drop H2 pre lvl lvl.length 0 (by omega), List.drop_zero]
      have hstepl : (merkleStepSpec H2 lvl).length = (lvl.length + 1) / 2 :=
        merkleStepSpec_length H2 lvl
      rw [show pre.length + lvl.length = (pre ++ lvl).length from (List.length_append _ _).symm]
      rw [show (lvl.length + 1) / 2 = (merkleStepSpec H2 lvl).length from hstepl.symm]
      rw [ih (merkleStepSpec H2 lvl) (pre ++ lvl) (merkleStepSpec_ne_nil H2 hne)
        (by rw [hstepl]; omega)]
      conv_rhs => rw [merkleLevelsSpec, dif_neg (by omega)]
      simp [List.append_assoc]
    · have h1' : lvl.length = 1 := by
        have := List.length_pos.mpr hne
        omega
      simp only [merkleLoop, if_neg h1]
      rw [merkleLevelsSpec, dif_pos (by omega)]
      simp


/-! ### Claim theorems -/

/-- C9: for every block, `getWork` returns `⌊2^256 / (decode_unsigned(bits) + 1)⌋`:
the work metric is computed from the unsigned decoding of the compact
`bits` field, with `largestHash = 2^256`. -/
theorem getWork_unsigned_decode (b : Block) :
    getWork b = 2 ^ 256 / (decodeDiffBitsUnsigned b.bits + 1) := rfl

/-- C8 counterexample: the claim's fold shifts the mask as an unbounded
integer, but the source's `mask >> 1` ToInt32-wraps and sign-extends.
At mask `0xffffffff` (ToInt32 gives −1, which arithmetic-shifts to
itself) with a 33-element branch, the code still places the sibling on
the left at step 33, while the claimed fold has exhausted the 32 mask
bits and places it on the right. -/
theorem calcMerkleBranch_toInt32_cex :
    calcMerkleBranch (fun l => l) [1] (List.replicate 33 [0]) 4294967295
      ≠ verifyBranchSpec (fun l => l) [1] (List.replicate 33 [0]) 4294967295 := by
  decide

/-- C8 (amended): the branch verifier folds over the branch in order,
replacing the accumulator with `H2(acc ‖ sibling)` when the low bit of
the remaining mask is 0 and `H2(sibling ‖ acc)` when it is 1, shifting
the mask right one bit per step and returning the final accumulator —
where the mask is coerced to a signed 32-bit integer (JavaScript
ToInt32) and the shift is arithmetic; for masks below `2^31` (every
mask with fewer than 32 meaningful bits, in particular all masks a
branch of at most 32 levels uses) that coercion is the identity and
the fold coincides with the plain specification fold. -/
theorem calcMerkleBranch_small_mask (H2 : List Nat → List Nat) :
    ∀ (branch : List (List Nat)) (leaf : List Nat) (mask : Nat), mask < 2 ^ 31 →
      calcMerkleBranch H2 leaf branch mask = verifyBranchSpec H2 leaf branch mask
  | [], _, _, _ => rfl
  | s :: rest, leaf, mask, hm => by
    have h32 : jsToInt32 (mask : Int) = (mask : Int) := by
      unfold jsToInt32
      omega
    have hshr : Int.shiftRight (mask : Int) 1 = ((mask / 2 : Nat) : Int) := rfl
    simp only [calcMerkleBranch, List.foldl_cons, verifyBranchSpec, h32, hshr]
    rcases Nat.mod_two_eq_zero_or_one mask with h | h
    · rw [if_neg (by omega), if_pos h]
      exact calcMerkleBranch_small_mask H2 rest (H2 (leaf ++ s)) (mask / 2) (by omega)
    · rw [if_pos (by omega), if_neg (by omega)]
      exact calcMerkleBranch_small_mask H2 rest (H2 (s ++ leaf)) (mask / 2) (by omega)

/-- C8 witness: the amended fold equation applied at a concrete small
mask and two-element branch. -/
theorem calcMerkleBranch_small_mask_witness :
    (5 : Nat) < 2 ^ 31
    ∧ calcMerkleBranch hashSevens [1] [[2], [3]] 5
        = verifyBranchSpec hashSevens [1] [[2], [3]] 5 :=
  ⟨by decide, calcMerkleBranch_small_mask hashSevens [[2], [3]] [1] 5 (by decide)⟩

/-- C7: the Merkle tree builder produces the flattened level structure
(level 0 the leaves in order, each higher level pairing `(2i, 2i+1)`
with the left element duplicated when the right is missing, parents
`H2(left ‖ right)`); the empty sequence yields a single zero-hash; and
the root (the flattened tree's last element) satisfies
`merkle_root([a,b,c]) = H2(H2(a‖b) ‖ H2(c‖c))` and
`merkle_root([x]) = x`. -/
theorem getMerkleTree_level_structure (H2 : List Nat → List Nat) (L : List (List Nat))
    (a b c x : List Nat) :
    (L ≠ [] → getMerkleTree H2 L = (merkleLevelsSpec H2 L).flatten)
    ∧ getMerkleTree H2 [] = [NULL_HASH]
    ∧ calcMerkleRootLeaves H2 [a, b, c] = H2 (H2 (a ++ b) ++ H2 (c ++ c))
    ∧ calcMerkleRootLeaves H2 [x] = x := by
  refine ⟨?_, rfl, by with_unfolding_all rfl, by with_unfolding_all rfl⟩
  intro hne
  have hlen : L.length ≠ 0 := fun h => hne (List.eq_nil_of_length_eq_zero h)
  simp only [getMerkleTree, if_neg hlen]
  have := merkleLoop_join H2 L.length L [] hne (by omega)
  simpa using this

/-- C7 witness: the level-structure equation instantiated at a concrete
three-leaf input. -/
theorem getMerkleTree_level_structure_witness :
    ([[1], [2], [3]] : List (List Nat)) ≠ []
    ∧ getMerkleTree hashSevens [[1], [2], [3]]
        = (merkleLevelsSpec hashSevens [[1], [2], [3]]).flatten :=
  ⟨by decide, (getMerkleTree_level_structure hashSevens [[1], [2], [3]] [] [] [] []).1 (by decide)⟩

/-- C1: the claim states that `checkBlock` step 5 succeeds when
`calc_merkle_root(txs)` equals the stored `merkle_root` and raises
exactly when they differ.  The code does the opposite: `checkMerkleRoot`
ignores its `txs` argument — `this.calcMerkleRoot()` is invoked with no
argument, so the call throws a `TypeError` whenever a merkle root is
present — and its comparison is inverted (it would throw `Merkle root
incorrect` precisely on equality).  At this input every other check of
`checkBlock` passes and the recomputed root EQUALS the stored root, yet
`checkBlock` fails. -/
theorem checkBlock_merkle_equal_still_fails :
    checkBlock hashZeros txHashFives 0 c1Block (some [cbTx]) = .error .typeError
    ∧ calcMerkleRoot hashZeros txHashFives [cbTx] = c1Block.merkle_root :=
  ⟨by with_unfolding_all rfl, by with_unfolding_all rfl⟩

/-- C3: the claim states the timestamps are sorted in ascending numeric
order, so `[7,2,5,1,9,3,8,4,6,10,11]` yields 6.  The code sorts with
the JavaScript default (decimal-string) comparator, producing
`[1,10,11,2,3,4,5,6,7,8,9]`, whose middle element is 4. -/
theorem getMedianTimePast_string_sort :
    getMedianTimePast c3Chain c3Self = .ok 4 := rfl

/-- C4: the claim states the coinbase-mask LCG is performed modulo
2^32.  The code computes it in IEEE-754 doubles with NO truncation: at
`nonce = 4294967294`, aux chain id 1 and `size = 2`, the double-rounded
`rand` is a multiple of 2^40 (mask bit 0) while the reference mod-2^32
LCG yields mask bit 1, so the code rejects a coinbase the claimed rule
accepts. -/
theorem checkAuxCoinbase_double_rounding :
    checkAuxCoinbase hashSevens c4Block
      = .error (.verification "AuxPOW blockchain bitmask does not match coinbase script")
    ∧ auxMaskSpec 4294967294 1 2 = 1
    ∧ readUInt32LE c4Script 36 = 4294967294
    ∧ (c4Block.aux.map (fun a => a.blockchain_branch_mask)) = some 1 :=
  ⟨by with_unfolding_all rfl, rfl, by with_unfolding_all rfl, rfl⟩

/-- C6: the claim states a genesis block delivers `this.bits` exactly
once regardless of network configuration.  The genesis branch of
`getNextWork` has no `return` after invoking the callback, so control
falls through: on this testnet configuration the callback is invoked
twice, first with `this.bits` (0x1d00ffff) and then with the
min-difficulty `powLimit` (0x1c00ffff). -/
theorem getNextWork_genesis_double_delivery :
    getNextWork c6Chain c6Genesis c6Next = [Except.ok 486604799, Except.ok 469827583] := rfl

/-- C2 counterexample: the claim states `checkProofOfWork` uses the
freshly computed `calc_hash` and raises exactly when its reversed
value exceeds the target.  The source uses `getHash()` — the STORED
hash when one is present.  Here the stored hash is 32 `0xff` bytes
(reversed value above the target) while the freshly computed hash is
all zero (reversed value 0, at or below the target), and the check
raises nonetheless. -/
theorem checkProofOfWork_stored_hash_cex :
    checkProofOfWork hashZeros c2Block = .error (.verification "Difficulty target not met")
    ∧ bytesBE (calcHash hashZeros c2Block.toBlockCore).reverse
        ≤ decodeDiffBitsUnsigned c2Block.bits :=
  ⟨by with_unfolding_all rfl, by decide⟩

/-- C2 (amended): `checkProofOfWork` selects `aux.parent.getHash()`
(the stored parent hash when present, otherwise freshly computed) when
AuxPoW is in effect — failing first when the aux chain id mismatches —
and the block's own `getHash()` otherwise; writing `h` for the selected
hash, it raises a `VerificationError` exactly when the byte-reversed
`h` is numerically greater than the target decoded from `bits`, and
succeeds otherwise. -/
theorem checkProofOfWork_selected_hash (H2 : List Nat → List Nat) (b : Block) (h : List Nat)
    (hsel : powHashSel H2 b = .ok h) (hlen : h.length = 32)
    (hbytes : ∀ x ∈ h, x < 256)
    (ht : decodeDiffBitsUnsigned b.bits < 2 ^ 256) :
    checkProofOfWork H2 b =
      if decodeDiffBitsUnsigned b.bits < bytesBE h.reverse then
        .error (.verification "Difficulty target not met")
      else .ok true := by
  simp only [checkProofOfWork, hsel]
  have h256 : (256 : Nat) ^ 32 = 2 ^ 256 := by norm_num
  have hlen2 : h.reverse.length = (natToBytesBE 32 (decodeDiffBitsUnsigned b.bits)).length := by
    rw [List.length_reverse, hlen, natToBytesBE_length]
  have hrevb : ∀ x ∈ h.reverse, x < 256 := fun x hx => hbytes x (List.mem_reverse.mp hx)
  have htb : ∀ x ∈ natToBytesBE 32 (decodeDiffBitsUnsigned b.bits), x < 256 :=
    natToBytesBE_bytes_lt 32 _
  have hval : bytesBE (natToBytesBE 32 (decodeDiffBitsUnsigned b.bits))
      = decodeDiffBitsUnsigned b.bits :=
    bytesBE_natToBytesBE 32 _ (by rw [h256]; exact ht)
  have hiff := bufCompare_gt_iff h.reverse (natToBytesBE 32 (decodeDiffBitsUnsigned b.bits))
    hlen2 hrevb htb
  rw [hval] at hiff
  by_cases hgt : decodeDiffBitsUnsigned b.bits < bytesBE h.reverse
  · rw [if_pos hgt, hiff.mpr hgt]
    rfl
  · rw [if_neg hgt]
    cases hx : bufCompare h.reverse (natToBytesBE 32 (decodeDiffBitsUnsigned b.bits)) with
    | lt => rfl
    | eq => rfl
    | gt => exact absurd (hiff.mp hx) hgt

/-- C2 witness: a block with no stored hash, whose freshly computed
(and therefore selected) hash is all zero and meets the target, passes
the check. -/
theorem checkProofOfWork_selected_hash_witness :
    powHashSel hashZeros c2wBlock = .ok (List.replicate 32 0)
    ∧ decodeDiffBitsUnsigned c2wBlock.bits < 2 ^ 256
    ∧ checkProofOfWork hashZeros c2wBlock = .ok true := by
  refine ⟨by with_unfolding_all rfl, by decide, ?_⟩
  rw [checkProofOfWork_selected_hash hashZeros c2wBlock (List.replicate 32 0)
    (by with_unfolding_all rfl) (by decide) (by decide) (by decide)]
  with_unfolding_all rfl

/-- C5: for every block at a retarget boundary whose anchor lookup
succeeds, on a configuration where the spacing divides the timespan
and 4 divides the timespan (so the source's float divisions are exact
integers — the canonical parameters are 1209600/600) with a
non-degenerate interval, `getNextWork` delivers exactly one value: the
encoding of `decode_signed(bits) · actual / target_timespan`, where
`actual` is the timestamp difference to the anchor (fetched at the
signed height `height − interval + 1`, one lower when
`height ≥ full_retarget_start > 0`) clamped into
`[target_timespan/4, target_timespan·4]`, the quotient clamped above
by the decoded `pow_limit`. -/
theorem getNextWork_retarget (chain : Chain) (self : Block) (next anchor : BlockCore)
    (hdvdS : chain.getTargetSpacing ∣ chain.getTargetTimespan)
    (hdvd4 : 4 ∣ chain.getTargetTimespan)
    (hI : 1 < chain.getTargetTimespan / chain.getTargetSpacing)
    (hb : (self.height + 1) % (chain.getTargetTimespan / chain.getTargetSpacing) = 0)
    (hanchor : chain.getBlockByHeight
      (if 0 < self.cfg.fullRetargetStart ∧ self.cfg.fullRetargetStart ≤ self.height then
        (self.height : Int)
          - ((chain.getTargetTimespan / chain.getTargetSpacing : Nat) : Int) + 1 - 1
      else
        (self.height : Int)
          - ((chain.getTargetTimespan / chain.getTargetSpacing : Nat) : Int) + 1)
      = some anchor) :
    getNextWork chain self next =
      [Except.ok (encodeDiffBits
        (min
          (Int.tdiv
            (decodeDiffBitsSigned self.bits *
              min (max ((self.timestamp : Int) - (anchor.timestamp : Int))
                    ((chain.getTargetTimespan / 4 : Nat) : Int))
                  ((chain.getTargetTimespan * 4 : Nat) : Int))
            (chain.getTargetTimespan : Int))
          (decodeDiffBitsSigned chain.getMinDiff)).toNat)] := by
  have hne0 : ¬self.height = 0 := by
    intro h0
    rw [h0, Nat.zero_add, Nat.mod_eq_of_lt hI] at hb
    exact one_ne_zero hb
  have hb' : ¬((self.height + 1) % (chain.getTargetTimespan / chain.getTargetSpacing) ≠ 0) :=
    fun hcon => hcon hb
  simp only [getNextWork, if_neg hne0, if_neg hb', List.nil_append, hanchor]
  have hmaxeq : ∀ a lo : Int, (if a < lo then lo else a) = max a lo := by
    intro a lo
    rw [max_def]
    split_ifs <;> omega
  have hmineq : ∀ hi a : Int, (if hi < a then hi else a) = min a hi := by
    intro hi a
    rw [min_def]
    split_ifs <;> omega
  rw [hmaxeq, hmineq, hmineq]

/-- C5 witness: canonical mainnet parameters, `bits = 0x1d00ffff`,
anchor 8 weeks earlier (`actual = 4 · target_timespan`): the retarget
result clamps to the pow limit and re-encodes to `0x1d00ffff`
(486604799). -/
theorem getNextWork_retarget_witness :
    (c5Self.height + 1) % (c5Chain.getTargetTimespan / c5Chain.getTargetSpacing) = 0
    ∧ c5Chain.getBlockByHeight 0 = some { height := 0, timestamp := 0 }
    ∧ getNextWork c5Chain c5Self {} = [Except.ok 486604799] := by
  refine ⟨by decide, rfl, ?_⟩
  rw [getNextWork_retarget c5Chain c5Self {} { height := 0, timestamp := 0 }
    ⟨2016, rfl⟩ ⟨302400, rfl⟩ (by decide) (by decide) (by with_unfolding_all rfl)]
  with_unfolding_all rfl

/-- C10: for every parent block, chain, beneficiary and any two values
of the optional `time` parameter (and any two wall-clock readings),
the two draft blocks returned by `prepareNextBlock` carry equal
`bits`: the difficulty is computed by `getNextWork` on a draft whose
timestamp is still 0 (it is assigned only afterwards), so the chosen
timestamp never influences the difficulty decision. -/
theorem prepareNextBlock_bits_time_independent (H2 : List Nat → List Nat)
    (txHash : Transaction → List Nat) (pubKeyScript : List Nat → List Nat)
    (chain : Chain) (self : Block) (beneficiary : List Nat)
    (t1 t2 : Option Nat) (now1 now2 : Nat) (d1 d2 : PrepResult)
    (h1 : prepareNextBlock H2 txHash pubKeyScript chain self beneficiary t1 now1 = .ok d1)
    (h2 : prepareNextBlock H2 txHash pubKeyScript chain self beneficiary t2 now2 = .ok d2) :
    d1.block.bits = d2.block.bits := by
  simp only [prepareNextBlock] at h1 h2
  rcases hm : getMedianTimePast chain self with e | med
  · rw [hm] at h1
    exact absurd h1 (by simp)
  · rw [hm] at h1 h2
    rcases hw : firstDelivery
        (getNextWork chain self ({ cfg := self.cfg } : Block).toBlockCore) with e | w
    · rw [hw] at h1
      exact absurd h1 (by simp)
    · rw [hw] at h1 h2
      simp only [Except.ok.injEq] at h1 h2
      rw [← h1, ← h2]

/-- C10 witness: the drafts prepared with `time = some 5` and
`time = some 99999` carry equal `bits`. -/
theorem prepareNextBlock_bits_time_independent_witness :
    prepareNextBlock hashZeros txHashOnes pkScriptNil c10Chain c10Self [] (some 5) 0 = .ok c10w1
    ∧ prepareNextBlock hashZeros txHashOnes pkScriptNil c10Chain c10Self [] (some 99999) 0
        = .ok c10w2
    ∧ c10w1.block.bits = c10w2.block.bits :=
  ⟨by with_unfolding_all rfl, by with_unfolding_all rfl,
    prepareNextBlock_bits_time_independent hashZeros txHashOnes pkScriptNil c10Chain c10Self []
      (some 5) (some 99999) 0 0 c10w1 c10w2 (by with_unfolding_all rfl)
      (by with_unfolding_all rfl)⟩
